import Mathlib

/-!
Verification of the stream abstraction layer and algebraic types of the
`typescript-types` repository.

The repository ships interface declarations only (`ReadableStream`,
`WriteableStream`, `ReadableBufferedStream`, `WriteableStreamOptions`,
`Either`); the runtime behaviour they contract is specified in the design
document.  The development below embeds that contract as an executable
state machine: each producer/consumer operation maps a stream state to a
successor state together with the list of events it emits to listeners.
-/

set_option maxHeartbeats 1000000

/-- Events delivered to listeners of a readable stream: `data` chunks,
`error` notifications, and the `ended` sentinel. -/
inductive StreamEvent (T E : Type) where
  | data (chunk : T)
  | error (err : E)
  | ended
deriving DecidableEq, Repr

/-- Modelled from the spec: the mutable state of a stream (the interfaces in
the source declare the API shape only).  `flowing` is the mode, `buffer` the
FIFO chunk buffer, `pendingEnd` records an `end` issued while paused that is
still to be flushed, `ended`/`destroyed` are the terminal flags. -/
structure StreamState (T E : Type) where
  flowing : Bool
  buffer : List T
  pendingEnd : Bool
  ended : Bool
  destroyed : Bool
deriving DecidableEq, Repr

variable {T E : Type}

/-- A freshly created stream: open, paused, with an empty buffer. -/
def initStream : StreamState T E :=
  { flowing := false, buffer := [], pendingEnd := false, ended := false, destroyed := false }

/-- A stream is terminal once it has ended or been destroyed. -/
def terminal (s : StreamState T E) : Bool :=
  s.ended || s.destroyed

/-- Modelled from the spec: `WriteableStream.write` (state/event part).
Writing while flowing triggers the `data` emission; otherwise the chunk is
buffered until the stream is flowing.  Post-terminal writes are silent
no-ops. -/
def writeStep (s : StreamState T E) (d : T) : StreamState T E × List (StreamEvent T E) :=
  if terminal s then (s, [])
  else if s.flowing then (s, [.data d])
  else ({ s with buffer := s.buffer ++ [d] }, [])

/-- Modelled from the spec: the full `WriteableStream.write`, including the
backpressure result.  The `Bool` is `true` when a pending-completion promise
is returned, which happens when a `highWaterMark` is configured and the
buffered-object count has reached or exceeded it. -/
def write (hwm : Option Nat) (s : StreamState T E) (d : T) :
    (StreamState T E × List (StreamEvent T E)) × Bool :=
  let r := writeStep s d
  (r, match hwm with
      | none => false
      | some m => decide (m ≤ r.1.buffer.length))

/-- Modelled from the spec: `WriteableStream.error` signals the error to the
`on('error')` listeners if the stream is flowing; it does not terminate the
stream (`end` does not happen automatically from `error`). -/
def errorStep (s : StreamState T E) (e : E) : StreamState T E × List (StreamEvent T E) :=
  if terminal s then (s, [])
  else if s.flowing then (s, [.error e])
  else (s, [])

/-- Modelled from the spec: `ReadableStream.resume` switches to flowing mode
and flushes the buffered chunks in FIFO order, followed by a buffered `end`
if one is pending.  Destroyed streams never emit again. -/
def resumeStep (s : StreamState T E) : StreamState T E × List (StreamEvent T E) :=
  if s.destroyed then (s, [])
  else ({ s with flowing := true, buffer := [], pendingEnd := false },
        s.buffer.map .data ++ if s.pendingEnd then [.ended] else [])

/-- Modelled from the spec: registering an `on('data')` listener switches the
stream into flowing mode, with the same flush behaviour as `resume`. -/
def onDataStep (s : StreamState T E) : StreamState T E × List (StreamEvent T E) :=
  resumeStep s

/-- Modelled from the spec: `ReadableStream.pause` stops event emission;
subsequent chunks accumulate in the buffer. -/
def pauseStep (s : StreamState T E) : StreamState T E × List (StreamEvent T E) :=
  if s.destroyed then (s, []) else ({ s with flowing := false }, [])

/-- Modelled from the spec: `WriteableStream.end` optionally performs a final
write, then transitions to the terminal `ended` state and emits `ended` (or
buffers it while paused, to be flushed on resume).  Post-terminal calls are
no-ops. -/
def endStep (s : StreamState T E) (r : Option T) : StreamState T E × List (StreamEvent T E) :=
  if terminal s then (s, [])
  else if s.flowing then
    ({ s with ended := true }, (r.map .data).toList ++ [.ended])
  else
    ({ s with ended := true, pendingEnd := true, buffer := s.buffer ++ r.toList }, [])

/-- Modelled from the spec: `ReadableStream.destroy` discards the buffered
state and silences all future emission. -/
def destroyStep (s : StreamState T E) : StreamState T E × List (StreamEvent T E) :=
  ({ s with destroyed := true, buffer := [], pendingEnd := false }, [])

/-- The operations a producer or consumer can invoke on a stream. -/
inductive StreamOp (T E : Type) where
  | write (d : T)
  | error (e : E)
  | endOp (r : Option T)
  | pause
  | resume
  | onData
  | destroy
deriving DecidableEq, Repr

/-- Dispatch one operation. -/
def runOp (s : StreamState T E) : StreamOp T E → StreamState T E × List (StreamEvent T E)
  | .write d => writeStep s d
  | .error e => errorStep s e
  | .endOp r => endStep s r
  | .pause => pauseStep s
  | .resume => resumeStep s
  | .onData => onDataStep s
  | .destroy => destroyStep s

/-- Run a sequence of operations, concatenating the emitted event traces. -/
def runOps (s : StreamState T E) : List (StreamOp T E) → StreamState T E × List (StreamEvent T E)
  | [] => (s, [])
  | op :: ops =>
    let r := runOp s op
    let rest := runOps r.1 ops
    (rest.1, r.2 ++ rest.2)

/-- Recognizer for the `ended` sentinel event. -/
def isEnd : StreamEvent T E → Bool
  | .ended => true
  | _ => false

/-- A trace with no `ended` sentinel in it. -/
def endFree (l : List (StreamEvent T E)) : Bool :=
  l.all fun e => !isEnd e

/-- A trace in which nothing follows an `ended` sentinel. -/
def endClosed : List (StreamEvent T E) → Bool
  | [] => true
  | e :: rest => if isEnd e then rest.isEmpty else endClosed rest

/-- A stream state that will never emit another event: it has terminated
(ended or destroyed) with nothing left to flush. -/
def Silent (s : StreamState T E) : Prop :=
  (s.ended = true ∨ s.destroyed = true) ∧ s.pendingEnd = false ∧ s.buffer = []

/-- The reachable-state invariant: flowing streams have empty buffers, a
pending end implies the ended flag, destroyed streams hold nothing, and an
ended stream whose end was already flushed holds nothing. -/
def StreamInv (s : StreamState T E) : Prop :=
  (s.flowing = true → s.buffer = []) ∧
  (s.pendingEnd = true → s.ended = true) ∧
  (s.destroyed = true → s.buffer = [] ∧ s.pendingEnd = false) ∧
  (s.ended = true → s.pendingEnd = false → s.buffer = [])

/-- A concrete paused open stream over `Nat` with one chunk buffered, used
by witnesses. -/
def pausedOneBuffered : StreamState Nat Nat := ⟨false, [1], false, false, false⟩

/-- A concrete flowing open stream over `Nat` with an empty buffer, used by
witnesses. -/
def flowingFresh : StreamState Nat Nat := ⟨true, [], false, false, false⟩

/-- A concrete stream over `Nat` that has ended, used by witnesses. -/
def endedFresh : StreamState Nat Nat := ⟨false, [], false, true, false⟩

/-- The `ReadableBufferedStream` shape from the source: the original stream
handle, the chunks already read, and the `ended` flag. -/
structure ReadableBufferedStream (T E : Type) where
  stream : StreamState T E
  buffer : List T
  ended : Bool
deriving DecidableEq, Repr

/-- Accumulate the chunks of an event trace until the first `ended` or
`error` event; the `Bool` records whether the accumulation stopped because
the stream ended. -/
def collectUntilTerminal : List (StreamEvent T E) → List T × Bool
  | [] => ([], false)
  | .data d :: rest =>
    let r := collectUntilTerminal rest
    (d :: r.1, r.2)
  | .ended :: _ => ([], true)
  | .error _ :: _ => ([], false)

/-- Modelled from the spec: the buffered-read helper (the source declares
only the `ReadableBufferedStream` result shape).  It registers the `data`
and `end`/`error` listeners atomically as a single setup step — switching
the fresh stream into flowing mode — then lets the producer operations run,
accumulating every delivered chunk until the first `end` or `error`, and
returns the stream handle together with the accumulated buffer and the
`ended` flag. -/
def listenStream (producer : List (StreamOp T E)) : ReadableBufferedStream T E :=
  let s0 := (onDataStep (initStream : StreamState T E)).1
  let r := runOps s0 producer
  let c := collectUntilTerminal r.2
  ⟨r.1, c.1, c.2⟩

/-- A small universe of JavaScript runtime values, enough to interpret the
types occurring in `ReadableStreamEventPayload<T> = T | Error | 'end'`. -/
inductive TSValue where
  | str (s : String)
  | num (n : Int)
  | boolean (b : Bool)
  | errObj (message : String)
deriving DecidableEq, Repr

/-- Membership in the TypeScript `Error` type: exactly the error objects. -/
def isErrorVal : TSValue → Bool
  | .errObj _ => true
  | _ => false

/-- The value of the string-literal type `'end'`, the end sentinel of the
payload union. -/
def endLiteral : TSValue := .str "end"

/-- The source's event payload type, interpreted as the set of runtime
values it admits: `ReadableStreamEventPayload<T> = T | Error | 'end'` is the
(untagged) union of the values of `T`, the error objects, and the string
`"end"`. -/
def ReadableStreamEventPayload (T : TSValue → Bool) (v : TSValue) : Bool :=
  T v || isErrorVal v || decide (v = endLiteral)

/-- The three intended cases of the payload union. -/
inductive PayloadCase where
  | dataCase
  | errorCase
  | endCase
deriving DecidableEq, Repr

/-- The cases a payload value could belong to: it counts as data when it
inhabits `T`, as an error when it is an error object, and as the end
sentinel when it is the string `"end"`. -/
def casesOf (T : TSValue → Bool) (v : TSValue) : List PayloadCase :=
  (if T v then [.dataCase] else [])
    ++ (if isErrorVal v then [.errorCase] else [])
    ++ (if v = endLiteral then [.endCase] else [])

/-- Membership in the TypeScript `string` type. -/
def stringType : TSValue → Bool
  | .str _ => true
  | _ => false

/-- Membership in the TypeScript `number` type. -/
def numberType : TSValue → Bool
  | .num _ => true
  | _ => false

/-- The `Either<L, A>` sum from the source: an `ILeft` holding an `L` or an
`IRight` holding an `A`. -/
inductive Either (L A : Type) where
  | left (value : L)
  | right (value : A)
deriving DecidableEq, Repr

/-- The `isLeft` guard documented on `ILeft`/`IRight`: true exactly on the
left variant. -/
def Either.isLeft {L A : Type} : Either L A → Bool
  | .left _ => true
  | .right _ => false

/-- The `isRight` guard documented on `ILeft`/`IRight`: true exactly on the
right variant. -/
def Either.isRight {L A : Type} : Either L A → Bool
  | .left _ => false
  | .right _ => true

theorem inv_initStream : StreamInv (initStream : StreamState T E) := by
  refine ⟨?_, ?_, ?_, ?_⟩ <;> simp [initStream, StreamInv]

theorem terminal_of_silent {s : StreamState T E} (h : Silent s) : terminal s = true := by
  rcases h with ⟨h1, -, -⟩
  cases h1 <;> simp [terminal, *]

theorem silent_runOp {s : StreamState T E} (op : StreamOp T E) (h : Silent s) :
    (runOp s op).2 = [] ∧ Silent (runOp s op).1 := by
  obtain ⟨h1, h2, h3⟩ := h
  have hterm : terminal s = true := terminal_of_silent ⟨h1, h2, h3⟩
  cases op with
  | write d => simp [runOp, writeStep, hterm, Silent, h1, h2, h3]
  | error e => simp [runOp, errorStep, hterm, Silent, h1, h2, h3]
  | endOp r => simp [runOp, endStep, hterm, Silent, h1, h2, h3]
  | pause =>
    by_cases hd : s.destroyed = true <;>
      simp [runOp, pauseStep, hd, Silent, h1, h2, h3] <;>
      rcases h1 with h1 | h1 <;> simp_all
  | resume =>
    by_cases hd : s.destroyed = true <;>
      simp [runOp, resumeStep, hd, Silent, h1, h2, h3] <;>
      rcases h1 with h1 | h1 <;> simp_all
  | onData =>
    by_cases hd : s.destroyed = true <;>
      simp [runOp, onDataStep, resumeStep, hd, Silent, h1, h2, h3] <;>
      rcases h1 with h1 | h1 <;> simp_all
  | destroy => simp [runOp, destroyStep, Silent, h1, h2, h3]

theorem silent_runOps (ops : List (StreamOp T E)) :
    ∀ s : StreamState T E, Silent s → (runOps s ops).2 = [] ∧ Silent (runOps s ops).1 := by
  induction ops with
  | nil => intro s h; exact ⟨rfl, h⟩
  | cons op ops ih =>
    intro s h
    have h1 := silent_runOp op h
    have h2 := ih _ h1.2
    simp only [runOps]
    exact ⟨by simp [h1.1, h2.1], h2.2⟩

theorem not_terminal {s : StreamState T E} (ht : terminal s = false) :
    s.ended = false ∧ s.destroyed = false := by
  simpa [terminal, Bool.or_eq_false_iff] using ht

theorem runOp_inv {s : StreamState T E} (op : StreamOp T E) (h : StreamInv s) :
    StreamInv (runOp s op).1 := by
  obtain ⟨h1, h2, h3, h4⟩ := h
  cases op with
  | write d =>
    by_cases ht : terminal s = true
    · simpa [runOp, writeStep, ht] using ⟨h1, h2, h3, h4⟩
    · obtain ⟨he, hd⟩ := not_terminal (by simpa using ht)
      by_cases hf : s.flowing = true <;>
        simp_all [runOp, writeStep, terminal, StreamInv]
  | error e =>
    by_cases ht : terminal s = true <;>
      by_cases hf : s.flowing = true <;>
      simp_all [runOp, errorStep, StreamInv]
  | endOp r =>
    by_cases ht : terminal s = true
    · simpa [runOp, endStep, ht] using ⟨h1, h2, h3, h4⟩
    · obtain ⟨he, hd⟩ := not_terminal (by simpa using ht)
      by_cases hf : s.flowing = true <;>
        simp_all [runOp, endStep, terminal, StreamInv]
  | pause =>
    by_cases hd : s.destroyed = true <;>
      simp_all [runOp, pauseStep, StreamInv]
  | resume =>
    by_cases hd : s.destroyed = true <;>
      simp_all [runOp, resumeStep, StreamInv]
  | onData =>
    by_cases hd : s.destroyed = true <;>
      simp_all [runOp, onDataStep, resumeStep, StreamInv]
  | destroy =>
    simp_all [runOp, destroyStep, StreamInv]

theorem endFree_append {l r : List (StreamEvent T E)} :
    endFree (l ++ r) = (endFree l && endFree r) := by
  simp [endFree, List.all_append]

theorem endFree_map_data (l : List T) :
    endFree (l.map (StreamEvent.data (E := E))) = true := by
  induction l with
  | nil => rfl
  | cons d l ih => simpa [endFree, isEnd] using ih

theorem endClosed_append_of_endFree {l : List (StreamEvent T E)}
    (h : endFree l = true) (r : List (StreamEvent T E)) :
    endClosed (l ++ r) = endClosed r := by
  induction l with
  | nil => rfl
  | cons e l ih =>
    have he : isEnd e = false := by
      have := (List.all_eq_true.mp h) e (by simp)
      simpa using this
    have hl : endFree l = true := by
      refine List.all_eq_true.mpr fun x hx => (List.all_eq_true.mp h) x (by simp [hx])
    simp [endClosed, he, ih hl]

theorem endClosed_of_endFree {l : List (StreamEvent T E)} (h : endFree l = true) :
    endClosed l = true := by
  have := endClosed_append_of_endFree h []
  simpa using this

theorem endClosed_map_data_snoc_end (l : List T) :
    endClosed (l.map (StreamEvent.data (E := E)) ++ [.ended]) = true := by
  rw [endClosed_append_of_endFree (endFree_map_data l)]
  rfl

theorem runOp_endClosed {s : StreamState T E} (op : StreamOp T E) (h : StreamInv s) :
    endClosed (runOp s op).2 = true := by
  obtain ⟨h1, h2, h3, h4⟩ := h
  cases op with
  | write d =>
    by_cases ht : terminal s = true <;> by_cases hf : s.flowing = true <;>
      simp_all [runOp, writeStep, endClosed, isEnd]
  | error e =>
    by_cases ht : terminal s = true <;> by_cases hf : s.flowing = true <;>
      simp_all [runOp, errorStep, endClosed, isEnd]
  | endOp r =>
    by_cases ht : terminal s = true
    · simp [runOp, endStep, ht, endClosed]
    · by_cases hf : s.flowing = true <;>
        cases r <;> simp_all [runOp, endStep, endClosed, isEnd]
  | pause =>
    by_cases hd : s.destroyed = true <;> simp_all [runOp, pauseStep, endClosed]
  | resume =>
    by_cases hd : s.destroyed = true
    · simp [runOp, resumeStep, hd, endClosed]
    · by_cases hp : s.pendingEnd = true <;>
        simp_all [runOp, resumeStep, endClosed_map_data_snoc_end,
          endClosed_of_endFree (endFree_map_data s.buffer)]
  | onData =>
    by_cases hd : s.destroyed = true
    · simp [runOp, onDataStep, resumeStep, hd, endClosed]
    · by_cases hp : s.pendingEnd = true <;>
        simp_all [runOp, onDataStep, resumeStep, endClosed_map_data_snoc_end,
          endClosed_of_endFree (endFree_map_data s.buffer)]
  | destroy => simp [runOp, destroyStep, endClosed]

theorem runOp_end_silent {s : StreamState T E} (op : StreamOp T E) (h : StreamInv s)
    (hne : endFree (runOp s op).2 = false) : Silent (runOp s op).1 := by
  obtain ⟨h1, h2, h3, h4⟩ := h
  cases op with
  | write d =>
    by_cases ht : terminal s = true <;> by_cases hf : s.flowing = true <;>
      simp_all [runOp, writeStep, endFree, isEnd]
  | error e =>
    by_cases ht : terminal s = true <;> by_cases hf : s.flowing = true <;>
      simp_all [runOp, errorStep, endFree, isEnd]
  | endOp r =>
    by_cases ht : terminal s = true
    · simp_all [runOp, endStep, endFree]
    · obtain ⟨he, hd⟩ := not_terminal (by simpa using ht)
      have hp : s.pendingEnd = false := by
        cases hpe : s.pendingEnd
        · rfl
        · exact absurd (h2 hpe) (by simp [he])
      by_cases hf : s.flowing = true
      · refine ⟨Or.inl ?_, ?_, ?_⟩ <;>
          simp_all [runOp, endStep, Silent]
      · simp_all [runOp, endStep, endFree, List.all_append, endFree_map_data]
  | pause =>
    by_cases hd : s.destroyed = true <;> simp_all [runOp, pauseStep, endFree]
  | resume =>
    by_cases hd : s.destroyed = true
    · simp_all [runOp, resumeStep, endFree]
    · by_cases hp : s.pendingEnd = true
      · refine ⟨Or.inl ?_, ?_, ?_⟩ <;> simp [runOp, resumeStep, hd, h2 hp]
      · exfalso
        have : endFree (runOp s .resume).2 = true := by
          simp_all [runOp, resumeStep, endFree_map_data]
        simp [this] at hne
  | onData =>
    by_cases hd : s.destroyed = true
    · simp_all [runOp, onDataStep, resumeStep, endFree]
    · by_cases hp : s.pendingEnd = true
      · refine ⟨Or.inl ?_, ?_, ?_⟩ <;> simp [runOp, onDataStep, resumeStep, hd, h2 hp]
      · exfalso
        have : endFree (runOp s .onData).2 = true := by
          simp_all [runOp, onDataStep, resumeStep, endFree_map_data]
        simp [this] at hne
  | destroy => simp_all [runOp, destroyStep, endFree]

theorem runOps_endClosed (ops : List (StreamOp T E)) :
    ∀ s : StreamState T E, StreamInv s → endClosed (runOps s ops).2 = true := by
  induction ops with
  | nil => intro s _; rfl
  | cons op ops ih =>
    intro s h
    simp only [runOps]
    by_cases hf : endFree (runOp s op).2 = true
    · rw [endClosed_append_of_endFree hf]
      exact ih _ (runOp_inv op h)
    · have hs : Silent (runOp s op).1 :=
        runOp_end_silent op h (by simpa using hf)
      rw [(silent_runOps ops _ hs).1, List.append_nil]
      exact runOp_endClosed op h

theorem endClosed_decomp {l : List (StreamEvent T E)} (hc : endClosed l = true) :
    ∀ t1 t2 : List (StreamEvent T E), l = t1 ++ .ended :: t2 → t2 = [] := by
  induction l with
  | nil =>
    intro t1 t2 h
    exact absurd h (by simp)
  | cons e l ih =>
    intro t1 t2 heq
    cases t1 with
    | nil =>
      simp only [List.nil_append, List.cons.injEq] at heq
      obtain ⟨he, hl⟩ := heq
      subst he
      subst hl
      simpa [endClosed, isEnd, List.isEmpty_iff] using hc
    | cons a t1 =>
      simp only [List.cons_append, List.cons.injEq] at heq
      obtain ⟨he, hl⟩ := heq
      have hcl : endClosed l = true := by
        cases hie : isEnd e
        · simpa [endClosed, hie] using hc
        · exfalso
          have : l.isEmpty = true := by simpa [endClosed, hie] using hc
          rw [List.isEmpty_iff] at this
          simp [this] at hl
      exact ih hcl t1 t2 hl

theorem endClosed_countP {l : List (StreamEvent T E)} (hc : endClosed l = true) :
    l.countP (fun e => isEnd e) ≤ 1 := by
  induction l with
  | nil => simp
  | cons e l ih =>
    cases hie : isEnd e
    · have hcl : endClosed l = true := by simpa [endClosed, hie] using hc
      simpa [List.countP_cons, hie] using ih hcl
    · have : l.isEmpty = true := by simpa [endClosed, hie] using hc
      rw [List.isEmpty_iff] at this
      simp [this, List.countP_cons, hie]

theorem runOps_append (l1 l2 : List (StreamOp T E)) :
    ∀ s : StreamState T E,
      runOps s (l1 ++ l2) =
        ((runOps (runOps s l1).1 l2).1,
         (runOps s l1).2 ++ (runOps (runOps s l1).1 l2).2) := by
  induction l1 with
  | nil => intro s; simp [runOps]
  | cons op l1 ih =>
    intro s
    simp [runOps, ih, List.append_assoc]

theorem runOps_map_write_paused (ws : List T) :
    ∀ s : StreamState T E, s.flowing = false → s.ended = false → s.destroyed = false →
      runOps s (ws.map .write) = ({ s with buffer := s.buffer ++ ws }, []) := by
  induction ws with
  | nil => intro s _ _ _; simp [runOps]
  | cons w ws ih =>
    intro s hf he hd
    have hterm : terminal s = false := by simp [terminal, he, hd]
    have hstep : writeStep s w = ({ s with buffer := s.buffer ++ [w] }, []) := by
      simp [writeStep, hterm, hf]
    have hrec := ih { s with buffer := s.buffer ++ [w] } hf he hd
    simp [runOps, runOp, hstep, hrec]

theorem runOps_map_write_flowing (ws : List T) :
    ∀ s : StreamState T E, s.flowing = true → s.ended = false → s.destroyed = false →
      runOps s (ws.map .write) = (s, ws.map .data) := by
  induction ws with
  | nil => intro s _ _ _; simp [runOps]
  | cons w ws ih =>
    intro s hf he hd
    have hterm : terminal s = false := by simp [terminal, he, hd]
    have hstep : writeStep s w = (s, [.data w]) := by
      simp [writeStep, hterm, hf]
    simp [runOps, runOp, hstep, ih s hf he hd]

/-- C1: for every stream and every sequence of `write` calls issued while the
stream is paused, `resume()` delivers the buffered chunks to the `data`
listeners in exactly the order in which they were written (FIFO), before any
chunk written after the resume. -/
theorem resume_flushes_paused_writes_in_fifo_order
    (s : StreamState T E) (ws : List T) (d : T)
    (hf : s.flowing = false) (he : s.ended = false) (hd : s.destroyed = false)
    (hp : s.pendingEnd = false) :
    (runOps s (ws.map .write ++ [.resume, .write d])).2
      = (s.buffer ++ ws).map .data ++ [.data d] := by
  rw [runOps_append, runOps_map_write_paused ws s hf he hd]
  simp [runOps, runOp, resumeStep, writeStep, terminal, hd, he, hp]

/-- Witness: from a fresh stream, writing 1 and 2 while paused and then
resuming and writing 3 emits exactly data 1, data 2, data 3. -/
theorem resume_flushes_paused_writes_in_fifo_order_witness :
    (initStream : StreamState Nat Nat).flowing = false ∧
    (runOps (initStream : StreamState Nat Nat) ([1, 2].map .write ++ [.resume, .write 3])).2
      = ((initStream : StreamState Nat Nat).buffer ++ [1, 2]).map .data ++ [.data 3] :=
  ⟨rfl, resume_flushes_paused_writes_in_fifo_order initStream [1, 2] 3 rfl rfl rfl rfl⟩

/-- C2: for every stream, once an `end` event has been observed by any
listener, no subsequent `data` event is ever delivered to any listener of
that stream instance. -/
theorem no_data_after_end_event
    (ops : List (StreamOp T E)) (t1 t2 : List (StreamEvent T E))
    (h : (runOps initStream ops).2 = t1 ++ .ended :: t2) :
    ∀ d : T, StreamEvent.data d ∉ t2 := by
  have hc := runOps_endClosed ops initStream inv_initStream
  have ht2 := endClosed_decomp hc t1 t2 h
  subst ht2
  simp

/-- Witness: resuming and ending a fresh stream yields the trace
`[ended]`, and no data event occurs after the `ended` sentinel. -/
theorem no_data_after_end_event_witness :
    (runOps (initStream : StreamState Nat Nat) [.resume, .endOp none]).2
      = [] ++ .ended :: [] ∧
    ∀ d : Nat, StreamEvent.data d ∉ ([] : List (StreamEvent Nat Nat)) :=
  ⟨by decide, no_data_after_end_event [.resume, .endOp none] [] [] (by decide)⟩

/-- C3 counterexample: on a flowing stream, `error(7)` followed by
`write(1)` and `end()` delivers an `error` event and afterwards both a
`data` event and an `end` event, so an error emission does not terminate
the stream and `error` and `end` can both be delivered in one lifetime. -/
theorem error_then_data_and_end_cex :
    (runOps (initStream : StreamState Nat Nat) [.resume, .error 7, .write 1, .endOp none]).2
      = [.error 7, .data 1, .ended] ∧
    StreamEvent.error 7 ∈
      (runOps (initStream : StreamState Nat Nat) [.resume, .error 7, .write 1, .endOp none]).2 ∧
    StreamEvent.ended ∈
      (runOps (initStream : StreamState Nat Nat) [.resume, .error 7, .write 1, .endOp none]).2 := by
  decide

/-- C3 amended: for every stream, at most one `end` event is delivered over
the stream's lifetime, and no event at all (data, error, or a second end) is
delivered after it; an `error` emission does not terminate the stream, so
`error` events may be followed by further `data` and by the `end` event. -/
theorem at_most_one_end_and_nothing_after_end (ops : List (StreamOp T E)) :
    (runOps initStream ops).2.countP (fun e => isEnd e) ≤ 1 ∧
    ∀ t1 t2 : List (StreamEvent T E),
      (runOps initStream ops).2 = t1 ++ .ended :: t2 → t2 = [] := by
  have hc := runOps_endClosed ops initStream inv_initStream
  exact ⟨endClosed_countP hc, fun t1 t2 h => endClosed_decomp hc t1 t2 h⟩

/-- Witness: the trace of resume-then-end holds exactly one `ended` event
and nothing follows it. -/
theorem at_most_one_end_and_nothing_after_end_witness :
    (runOps (initStream : StreamState Nat Nat) [.resume, .endOp none]).2.countP
      (fun e => isEnd e) ≤ 1 ∧
    ([] : List (StreamEvent Nat Nat)) = [] :=
  ⟨(at_most_one_end_and_nothing_after_end [.resume, .endOp none]).1,
   (at_most_one_end_and_nothing_after_end [.resume, .endOp none]).2 [] [] (by decide)⟩

/-- C8: if `destroy()` is called after `write(a); write(b)` but before
`resume()`, then no event at all — in particular no `data` event for `a` or
`b` — is ever delivered afterward, whatever operations (including listener
registrations and resumes) follow. -/
theorem destroy_before_resume_silences_buffered_chunks
    (a b : T) (rest : List (StreamOp T E)) :
    (runOps initStream ([.write a, .write b, .destroy] ++ rest)).2 = [] := by
  rw [runOps_append]
  have hpre : runOps (initStream : StreamState T E) [.write a, .write b, .destroy]
      = ({ flowing := false, buffer := [], pendingEnd := false, ended := false,
           destroyed := true }, []) := by
    simp [runOps, runOp, writeStep, destroyStep, terminal, initStream]
  rw [hpre]
  have hs := silent_runOps rest
    ({ flowing := false, buffer := [], pendingEnd := false, ended := false,
       destroyed := true } : StreamState T E) ⟨Or.inr rfl, rfl, rfl⟩
  simp [hs.1]

/-- C4: `write(data)` returns a pending-completion signal if and only if the
count of buffered objects has reached or exceeded the configured
`highWaterMark`; when no `highWaterMark` is configured, `write` never
signals backpressure and always returns immediately. -/
theorem write_backpressure_iff_highWaterMark_reached
    (hwm : Option Nat) (s : StreamState T E) (d : T) :
    ((write hwm s d).2 = true ↔
      ∃ m, hwm = some m ∧ m ≤ (write hwm s d).1.1.buffer.length) ∧
    (hwm = none → (write hwm s d).2 = false) := by
  cases hwm with
  | none => simp [write]
  | some m => simp [write]

/-- Witness: with `highWaterMark = 2` and one chunk already buffered, a
paused write returns the pending signal; with no `highWaterMark`, it does
not. -/
theorem write_backpressure_iff_highWaterMark_reached_witness :
    (write (some 2) pausedOneBuffered 5).2 = true ∧
    (write none (initStream : StreamState Nat Nat) 5).2 = false :=
  ⟨(write_backpressure_iff_highWaterMark_reached (some 2) pausedOneBuffered 5).1.mpr
      ⟨2, rfl, by decide⟩,
   (write_backpressure_iff_highWaterMark_reached none
      (initStream : StreamState Nat Nat) 5).2 rfl⟩

/-- C6: `error(err)` emits the `error` event exactly when the stream is
currently flowing (and not terminal), and does not itself terminate the
stream: the state is left completely unchanged, so the stream remains open
until `end()` is explicitly called. -/
theorem error_emits_only_when_flowing_and_preserves_state
    (s : StreamState T E) (e : E) :
    (errorStep s e).1 = s ∧
    ((errorStep s e).2 = [.error e] ↔ s.flowing = true ∧ terminal s = false) ∧
    ((errorStep s e).2 ≠ [] → s.flowing = true) := by
  refine ⟨?_, ?_, ?_⟩
  · by_cases ht : terminal s = true <;> by_cases hf : s.flowing = true <;>
      simp [errorStep, ht, hf]
  · by_cases ht : terminal s = true <;> by_cases hf : s.flowing = true <;>
      simp_all [errorStep]
  · by_cases ht : terminal s = true <;> by_cases hf : s.flowing = true <;>
      simp_all [errorStep]

/-- Witness: on an open flowing stream, `error(7)` emits the error event and
leaves the state unchanged. -/
theorem error_emits_only_when_flowing_and_preserves_state_witness :
    (errorStep flowingFresh 7).1 = flowingFresh ∧
    (errorStep flowingFresh 7).2 = [.error 7] :=
  ⟨(error_emits_only_when_flowing_and_preserves_state flowingFresh 7).1,
   (error_emits_only_when_flowing_and_preserves_state flowingFresh 7).2.1.mpr
     ⟨rfl, rfl⟩⟩

/-- C7: for every stream in a terminal state (after `end()` or `destroy()`),
further `write` and `error` calls are silent no-ops: they emit no event and
leave the stream's state unchanged (every operation of the model is a total
function, so no call throws). -/
theorem post_terminal_write_and_error_are_noops
    (s : StreamState T E) (d : T) (e : E) (ht : terminal s = true) :
    writeStep s d = (s, []) ∧ errorStep s e = (s, []) := by
  constructor <;> simp [writeStep, errorStep, ht]

/-- Witness: on an already-ended stream, `write 1` and `error 2` change
nothing and emit nothing. -/
theorem post_terminal_write_and_error_are_noops_witness :
    terminal endedFresh = true ∧
    writeStep endedFresh 1 = (endedFresh, []) ∧
    errorStep endedFresh 2 = (endedFresh, []) :=
  ⟨rfl,
   (post_terminal_write_and_error_are_noops endedFresh 1 2 rfl).1,
   (post_terminal_write_and_error_are_noops endedFresh 1 2 rfl).2⟩

theorem collectUntilTerminal_data_end (ws : List T) :
    collectUntilTerminal (ws.map (StreamEvent.data (E := E)) ++ [.ended]) = (ws, true) := by
  induction ws with
  | nil => rfl
  | cons w ws ih => simp [collectUntilTerminal, ih]

/-- C5: for any finite sequence of writes followed by `end()`, the
buffered-read helper returns a `ReadableBufferedStream` whose buffer equals
the exact write sequence and whose `ended` flag is `true`, and the returned
stream handle never delivers another event — in particular no chunk appears
both in the returned buffer and in a later `data` emission, so buffering is
lossless and non-duplicating. -/
theorem listenStream_buffers_exact_write_sequence (ws : List T) :
    (listenStream (E := E) (ws.map .write ++ [.endOp none])).buffer = ws ∧
    (listenStream (E := E) (ws.map .write ++ [.endOp none])).ended = true ∧
    ∀ rest : List (StreamOp T E),
      (runOps (listenStream (ws.map .write ++ [.endOp none])).stream rest).2 = [] := by
  have hs0 : (onDataStep (initStream : StreamState T E)).1
      = ⟨true, [], false, false, false⟩ := by
    simp [onDataStep, resumeStep, initStream]
  have hw := runOps_map_write_flowing ws
    (⟨true, [], false, false, false⟩ : StreamState T E) rfl rfl rfl
  have hrun : runOps ((onDataStep (initStream : StreamState T E)).1)
      (ws.map .write ++ [.endOp none])
      = (⟨true, [], false, true, false⟩, ws.map .data ++ [.ended]) := by
    rw [hs0, runOps_append, hw]
    simp [runOps, runOp, endStep, terminal]
  have hls : listenStream (E := E) (ws.map .write ++ [.endOp none])
      = ⟨⟨true, [], false, true, false⟩, ws, true⟩ := by
    simp [listenStream, hrun, collectUntilTerminal_data_end]
  refine ⟨by simp [hls], by simp [hls], ?_⟩
  intro rest
  rw [hls]
  exact (silent_runOps rest _ ⟨Or.inl rfl, rfl, rfl⟩).1

/-- C9 counterexample: for the element type `T = string`, the payload value
`"end"` inhabits both the data case and the end-sentinel case of
`ReadableStreamEventPayload<T> = T | Error | 'end'`, so the union is not a
tagged union whose case can be uniquely determined for every `T`. -/
theorem payload_case_ambiguous_for_string_cex :
    ReadableStreamEventPayload stringType endLiteral = true ∧
    casesOf stringType endLiteral = [.dataCase, .endCase] ∧
    (casesOf stringType endLiteral).length ≠ 1 := by
  refine ⟨rfl, ?_, ?_⟩ <;> decide

/-- C9 amended: the event payload is the untagged union of `T`, `Error`, and
the literal `'end'`; its three cases are unambiguously distinguishable not
for every element type `T`, but exactly when `T` overlaps neither the error
objects nor the string `"end"` — in that case every payload value belongs to
exactly one case. -/
theorem payload_case_unique_when_cases_disjoint
    (T : TSValue → Bool)
    (hdisj : ∀ v, T v = true → isErrorVal v = false ∧ v ≠ endLiteral) :
    ∀ v, ReadableStreamEventPayload T v = true → (casesOf T v).length = 1 := by
  intro v hv
  have herr_end : isErrorVal v = true → v ≠ endLiteral := by
    cases v <;> simp [isErrorVal, endLiteral]
  by_cases hT : T v = true
  · obtain ⟨h1, h2⟩ := hdisj v hT
    simp [casesOf, hT, h1, h2]
  · have hT' : T v = false := by simpa using hT
    by_cases hE : isErrorVal v = true
    · simp [casesOf, hT', hE, herr_end hE]
    · have hE' : isErrorVal v = false := by simpa using hE
      have hend : v = endLiteral := by
        simp [ReadableStreamEventPayload, hT', hE'] at hv
        exact hv
      subst hend
      simp [casesOf, hT', hE']

/-- Witness: for `T = number`, which overlaps neither `Error` nor `'end'`,
the payload value `3` belongs to exactly one case. -/
theorem payload_case_unique_when_cases_disjoint_witness :
    ReadableStreamEventPayload numberType (.num 3) = true ∧
    (casesOf numberType (.num 3)).length = 1 :=
  ⟨rfl,
   payload_case_unique_when_cases_disjoint numberType
     (fun v hv => by cases v <;> simp_all [numberType, isErrorVal, endLiteral])
     (.num 3) rfl⟩

/-- C10: for every value of type `Either<L, A>`, the guards `isLeft()` and
`isRight()` are mutually exclusive and exhaustive: exactly one of them
returns true, `isLeft()` returns true precisely when the value is a left
holding an `L`, and `isRight()` returns true precisely when the value is a
right holding an `A`. -/
theorem either_isLeft_isRight_exclusive_exhaustive {L A : Type} (e : Either L A) :
    (e.isLeft = true ↔ ∃ l, e = .left l) ∧
    (e.isRight = true ↔ ∃ a, e = .right a) ∧
    ((e.isLeft = true ∧ e.isRight = false) ∨ (e.isLeft = false ∧ e.isRight = true)) := by
  cases e <;> simp [Either.isLeft, Either.isRight]
